import Mathlib

/-!
Verification of the foodgram backend's shopping-cart aggregation and
membership (favorite / shopping-list / follow) operations, shallowly
embedded from `backend/api/views.py` and `backend/recipes/models.py`.

Conventions of the embedding:
* Django model rows become Lean structures; foreign keys to `Ingredient`
  are embedded as the full record (the aggregation query joins the
  ingredient's `name` and `measurement_unit` anyway).
* The database is a `DB` record of lists of rows.  The `Favorite`,
  `ShoppingList`, `Follow` and `CustomUser` model classes are imported by
  the views but their class declarations are not among the provided model
  sources; their shapes (a (user, recipe) resp. (user, author) pair per
  row) are modelled from the spec's data-model section.
* `get_object_or_404(M, ...)` becomes an `Option`-valued lookup whose
  `none` case produces the 404 response; Django's `.get()` with more than
  one matching row raises `MultipleObjectsReturned`, modelled as a 500
  response with the state unchanged.
-/

namespace Foodgram

/-- `recipes.models.Ingredient`: display name and measurement unit
(plus the implicit primary key `id`). -/
structure Ingredient where
  id : Nat
  name : String
  measurement_unit : String
deriving DecidableEq, Repr

/-- `recipes.models.Recipe`, restricted to the fields the claims need:
the primary key and the validated `cooking_time`. -/
structure RecipeRow where
  id : Nat
  cooking_time : Nat
deriving DecidableEq, Repr

/-- The ingredient-per-recipe join row (`recipes.models.IngredientAmount`,
referred to as `IngredientInRecipe` by the views): one ingredient, one
recipe, one positive amount. -/
structure IngredientAmountRow where
  ingredient : Ingredient
  recipeId : Nat
  amount : Nat
deriving DecidableEq, Repr

/-- The persistent state seen by the views.  `favorites`, `shoppingList`
and `follows` are lists of (user id, target id) rows; `users` is the list
of `CustomUser` primary keys.  The three membership models and
`CustomUser` are imported by the views but not declared in the provided
model sources; their shapes are modelled from the spec's data-model
section (join entities associating a user with a recipe resp. an
author). -/
structure DB where
  users : List Nat
  recipes : List RecipeRow
  ingredientAmounts : List IngredientAmountRow
  favorites : List (Nat × Nat)
  shoppingList : List (Nat × Nat)
  follows : List (Nat × Nat)
deriving DecidableEq, Repr

/-! ### Shopping-cart aggregation (`DownloadShoppingCart.get`) -/

/-- `request.user.purchases.values_list('recipe__id')`: the recipe ids of
the user's `ShoppingList` rows. -/
def purchasedRecipeIds (db : DB) (u : Nat) : List Nat :=
  (db.shoppingList.filter (fun p => p.1 = u)).map (fun p => p.2)

/-- `IngredientInRecipe.objects.filter(recipe__in=recipe_id)`: every
ingredient-amount row whose recipe is in the user's shopping list. -/
def cartRows (db : DB) (u : Nat) : List IngredientAmountRow :=
  db.ingredientAmounts.filter (fun r => r.recipeId ∈ purchasedRecipeIds db u)

/-- One step of the grouped aggregation
`.values('ingredient', 'ingredient__name', 'ingredient__measurement_unit')
.annotate(amount=Sum('amount'))`: rows are grouped by the selected
ingredient values (the embedded `Ingredient` record) and their amounts
summed, keeping first-encounter order of groups. -/
def addToGroup (acc : List (Ingredient × Nat)) (r : IngredientAmountRow) :
    List (Ingredient × Nat) :=
  if acc.any (fun g => g.1 = r.ingredient) then
    acc.map (fun g => if g.1 = r.ingredient then (g.1, g.2 + r.amount) else g)
  else
    acc ++ [(r.ingredient, r.amount)]

/-- The grouped-and-summed queryset rows, in first-encounter order. -/
def annotateSum (rows : List IngredientAmountRow) : List (Ingredient × Nat) :=
  rows.foldl addToGroup []

/-- One value of the `buying_list` Python dict: the stored
`measurement_unit` and running `amount` under a display-name key. -/
structure BuyEntry where
  name : String
  measurement_unit : String
  amount : Nat
deriving DecidableEq, Repr

/-- One iteration of the `for ingredient in ingredients:` loop: if the
display name is not yet a key of `buying_list` a fresh entry is inserted
(keeping this group's unit), otherwise the existing entry's amount is
increased (Python dicts keep insertion order). -/
def addToBuying (acc : List BuyEntry) (g : Ingredient × Nat) : List BuyEntry :=
  if acc.any (fun e => e.name = g.1.name) then
    acc.map (fun e =>
      if e.name = g.1.name then { e with amount := e.amount + g.2 } else e)
  else
    acc ++ [⟨g.1.name, g.1.measurement_unit, g.2⟩]

/-- The fully built `buying_list`, as its ordered list of entries. -/
def buildBuyingList (rows : List IngredientAmountRow) : List BuyEntry :=
  (annotateSum rows).foldl addToBuying []

/-- One ingredient line of the report:
`f'{item} - {buying_list[item]["amount"]} {buying_list[item]["measurement_unit"]} \n'`. -/
def ingredientLine (e : BuyEntry) : String :=
  e.name ++ " - " ++ toString e.amount ++ " " ++ e.measurement_unit ++ " \n"

/-- The fixed attribution footer appended after the blank line. -/
def footerLine : String :=
  "FoodGram | kirilyuk.surgut@yandex.ru | 2022"

/-- The `wishlist` list of strings: one line per `buying_list` entry,
then a blank line, then the footer. -/
def wishlistLines (db : DB) (u : Nat) : List String :=
  ((buildBuyingList (cartRows db u)).map ingredientLine) ++ ["\n", footerLine]

/-- The ingredient-line format as the spec's words state it:
`"<name> - <summed amount> <measurement unit>"` (name, space, hyphen,
space, amount, space, unit) — written for comparison with the source's
`ingredientLine`. -/
def specIngredientLine (e : BuyEntry) : String :=
  e.name ++ " - " ++ toString e.amount ++ " " ++ e.measurement_unit

/-- The HTTP response value assembled by `DownloadShoppingCart.get`.
`contentType` is Django's `content_type` constructor argument;
`headers` holds headers assigned by subscription (`response[...] = ...`). -/
structure HttpResponseModel where
  status : Nat
  contentType : String
  headers : List (String × String)
  bodyLines : List String
deriving DecidableEq, Repr

/-- `DownloadShoppingCart.get`: builds `wishlist` and returns
`HttpResponse(wishlist, 'Content-Type: text/plain')` (the second
positional argument of `HttpResponse` is `content_type`, so that whole
string becomes the content type) with the `Content-Disposition` header
then assigned.  Django's default status is 200. -/
def DownloadShoppingCart_get (db : DB) (u : Nat) : HttpResponseModel :=
  { status := 200
    contentType := "Content-Type: text/plain"
    headers := [("Content-Disposition", "attachment; filename=\"wishlist.txt\"")]
    bodyLines := wishlistLines db u }

/-! ### Membership operations (favorite / shopping list / follow) -/

/-- A response body: a plain message string, or serializer output
(`AddFavouriteRecipeSerializer(recipe)` resp.
`ShowFollowersSerializer(author)`), abstracted to the serialized row. -/
inductive Body where
  | msg : String → Body
  | recipeRepr : RecipeRow → Body
  | userRepr : Nat → Body
deriving DecidableEq, Repr

/-- A DRF `Response` (or a Django error page): status code and body. -/
structure Response where
  status : Nat
  body : Body
deriving DecidableEq, Repr

/-- The page `get_object_or_404` raises when no row matches. -/
def resp404 : Response := ⟨404, Body.msg "Not Found"⟩

/-- `.get()` with several matching rows raises `MultipleObjectsReturned`,
which no view here catches; it surfaces as a server error. -/
def resp500 : Response := ⟨500, Body.msg "MultipleObjectsReturned"⟩

/-- The `acted_model` argument of `get_post` / `get_delete`: the
`Favorite` or `ShoppingList` model class. -/
inductive ActedModel where
  | Favorite
  | ShoppingList
deriving DecidableEq, Repr

/-- The table of membership rows of the given model class. -/
def actedTable (db : DB) : ActedModel → List (Nat × Nat)
  | ActedModel.Favorite => db.favorites
  | ActedModel.ShoppingList => db.shoppingList

/-- Replace the table of membership rows of the given model class. -/
def setActedTable (db : DB) (m : ActedModel) (t : List (Nat × Nat)) : DB :=
  match m with
  | ActedModel.Favorite => { db with favorites := t }
  | ActedModel.ShoppingList => { db with shoppingList := t }

/-- A Django model instance defines neither `__bool__` nor `__len__`, so
`bool(instance)` is always `True`; `if not favorite_obj` in `get_delete`
therefore tests the negation of a constantly-true value. -/
def instanceTruthy (_row : Nat × Nat) : Bool := true

/-- `api.views.get_post(request, recipe_id, acted_model)`:
resolve the recipe via `get_object_or_404`; 400 if the (user, recipe)
membership row already exists; otherwise create the row and answer 201
with the serialized recipe. -/
def get_post (db : DB) (u rid : Nat) (m : ActedModel) : Response × DB :=
  match db.recipes.find? (fun r => r.id = rid) with
  | none => (resp404, db)
  | some recipe =>
    if (u, rid) ∈ actedTable db m then
      (⟨400, Body.msg "Рецепт уже добавлен"⟩, db)
    else
      (⟨201, Body.recipeRepr recipe⟩,
        setActedTable db m (actedTable db m ++ [(u, rid)]))

/-- `api.views.get_delete(request, recipe_id, acted_model)`:
resolve the recipe via `get_object_or_404`, then the membership row via
`get_object_or_404` (404 on zero matches, `MultipleObjectsReturned` on
several); `if not favorite_obj` would answer 400, otherwise the row is
deleted and 204 returned. -/
def get_delete (db : DB) (u rid : Nat) (m : ActedModel) : Response × DB :=
  match db.recipes.find? (fun r => r.id = rid) with
  | none => (resp404, db)
  | some _ =>
    match (actedTable db m).filter (fun p => p = (u, rid)) with
    | [] => (resp404, db)
    | [row] =>
      if instanceTruthy row = false then
        (⟨400, Body.msg "Рецепт не был добавлен"⟩, db)
      else
        (⟨204, Body.msg "Удалено"⟩,
          setActedTable db m ((actedTable db m).filter (fun p => p ≠ (u, rid))))
    | _ => (resp500, db)

/-- `FollowViewSet.post(request, user_id)`: resolve the author via
`get_object_or_404(CustomUser, id=user_id)`; 400 if the follow already
exists; otherwise create it and answer 201 with the serialized author. -/
def FollowViewSet_post (db : DB) (u userId : Nat) : Response × DB :=
  if userId ∈ db.users then
    if (u, userId) ∈ db.follows then
      (⟨400, Body.msg "Вы уже подписаны"⟩, db)
    else
      (⟨201, Body.userRepr userId⟩,
        { db with follows := db.follows ++ [(u, userId)] })
  else (resp404, db)

/-- `FollowViewSet.delete(request, user_id)`: resolve the author, then
the follow row via `get_object_or_404(Follow, user=user, author=author)`;
delete it and answer 204. -/
def FollowViewSet_delete (db : DB) (u userId : Nat) : Response × DB :=
  if userId ∈ db.users then
    match db.follows.filter (fun p => p = (u, userId)) with
    | [] => (resp404, db)
    | [_] =>
      (⟨204, Body.msg "Удалено"⟩,
        { db with follows := db.follows.filter (fun p => p ≠ (u, userId)) })
    | _ => (resp500, db)
  else (resp404, db)

/-- The three membership kinds of the spec's `addMembership` /
`removeMembership` operations. -/
inductive Kind where
  | favorite
  | shopping
  | follow
deriving DecidableEq, Repr

/-- The membership table a kind acts on. -/
def kindTable (db : DB) : Kind → List (Nat × Nat)
  | Kind.favorite => db.favorites
  | Kind.shopping => db.shoppingList
  | Kind.follow => db.follows

/-- Whether the kind's target (recipe resp. author) exists in storage. -/
def targetOk (db : DB) : Kind → Nat → Prop
  | Kind.favorite, t => ∃ r ∈ db.recipes, r.id = t
  | Kind.shopping, t => ∃ r ∈ db.recipes, r.id = t
  | Kind.follow, t => t ∈ db.users

instance (db : DB) (k : Kind) (t : Nat) : Decidable (targetOk db k t) := by
  cases k <;> simp only [targetOk] <;> infer_instance

/-- The 201 body each kind answers with: the serialized target. -/
def kindRepr (db : DB) : Kind → Nat → Body
  | Kind.follow, t => Body.userRepr t
  | _, t =>
    match db.recipes.find? (fun r => r.id = t) with
    | some recipe => Body.recipeRepr recipe
    | none => Body.msg "Not Found"

/-- The 400 message each kind answers with when the row already exists. -/
def alreadyMsg : Kind → String
  | Kind.follow => "Вы уже подписаны"
  | _ => "Рецепт уже добавлен"

/-- The spec's `addMembership(user, target, kind)`, dispatching exactly
as the view classes do: `FavouriteViewSet.post` / `ShoppingListViewSet.post`
call `get_post` with the respective model, `FollowViewSet.post` handles
follows. -/
def addMembership (k : Kind) (db : DB) (u t : Nat) : Response × DB :=
  match k with
  | Kind.favorite => get_post db u t ActedModel.Favorite
  | Kind.shopping => get_post db u t ActedModel.ShoppingList
  | Kind.follow => FollowViewSet_post db u t

/-- The spec's `removeMembership(user, target, kind)`, dispatching as the
view classes do onto `get_delete` resp. `FollowViewSet.delete`. -/
def removeMembership (k : Kind) (db : DB) (u t : Nat) : Response × DB :=
  match k with
  | Kind.favorite => get_delete db u t ActedModel.Favorite
  | Kind.shopping => get_delete db u t ActedModel.ShoppingList
  | Kind.follow => FollowViewSet_delete db u t

/-! ### Recipe creation validation -/

/-- Django's `validators.MinValueValidator(limit)`: a value passes iff
`limit ≤ value`. -/
def MinValueValidator (limit value : Nat) : Bool := decide (limit ≤ value)

/-- The validator list of `Recipe.cooking_time`
(`MinValueValidator(1, message='Мин. время приготовления 1 минута')`). -/
def cookingTimeOk (t : Nat) : Bool := MinValueValidator 1 t

/-- Modelled from the spec: recipe creation runs field validation and a
recipe failing it is rejected and not stored (the create serializer is
not among the provided sources; the validator itself is
`Recipe.cooking_time`'s, from the model source). -/
def createRecipe (db : DB) (rid t : Nat) : Option DB :=
  if cookingTimeOk t then
    some { db with recipes := db.recipes ++ [⟨rid, t⟩] }
  else none

/-! ### Helper quantities and concrete states -/

/-- Total amount carried by the rows of a fixed ingredient record. -/
def sumFor (i : Ingredient) (rows : List IngredientAmountRow) : Nat :=
  ((rows.filter (fun r => r.ingredient = i)).map (fun r => r.amount)).sum

/-- Total amount carried by the queryset groups of a fixed display name. -/
def groupSum (n : String) (gs : List (Ingredient × Nat)) : Nat :=
  ((gs.filter (fun g => g.1.name = n)).map (fun g => g.2)).sum

/-- A small concrete state: two users, one recipe, no memberships. -/
def dbM : DB :=
  { users := [1, 2]
    recipes := [⟨1, 5⟩]
    ingredientAmounts := []
    favorites := []
    shoppingList := []
    follows := [] }

/-- `dbM` with the (1, 1) favorite row present. -/
def dbMfav : DB := { dbM with favorites := [(1, 1)] }

/-- `dbM` after a successful `createRecipe dbM 9 2`. -/
def dbMplus : DB := { dbM with recipes := [⟨1, 5⟩, ⟨9, 2⟩] }

/-- Concrete state for the aggregation: user 1's shopping list holds
recipes 1 and 2, which share the ingredient record `sugar` (amounts 3
and 4); recipe 1 also uses `flour`. -/
def dbC1 : DB :=
  { users := [1]
    recipes := [⟨1, 10⟩, ⟨2, 10⟩]
    ingredientAmounts :=
      [⟨⟨1, "sugar", "g"⟩, 1, 3⟩,
       ⟨⟨2, "flour", "g"⟩, 1, 2⟩,
       ⟨⟨1, "sugar", "g"⟩, 2, 4⟩]
    favorites := []
    shoppingList := [(1, 1), (1, 2)]
    follows := [] }

/-- Concrete state with two distinct ingredient records that share the
display name `salt` but have different units, each used by one of the
two purchased recipes. -/
def dbC2 : DB :=
  { users := [1]
    recipes := [⟨1, 10⟩, ⟨2, 10⟩]
    ingredientAmounts :=
      [⟨⟨1, "salt", "g"⟩, 1, 5⟩,
       ⟨⟨2, "salt", "kg"⟩, 2, 7⟩]
    favorites := []
    shoppingList := [(1, 1), (1, 2)]
    follows := [] }

/-- Concrete state with a single purchased recipe using one ingredient. -/
def dbC4 : DB :=
  { users := [1]
    recipes := [⟨1, 10⟩]
    ingredientAmounts := [⟨⟨1, "salt", "g"⟩, 1, 5⟩]
    favorites := []
    shoppingList := [(1, 1)]
    follows := [] }

/-! ### Lemmas about the two grouping folds -/

theorem find?_eq_filter_head {α : Type} (p : α → Bool) (l : List α) :
    l.find? p = (l.filter p).head? := by
  induction l with
  | nil => rfl
  | cons x xs ih =>
    by_cases hx : p x
    · rw [List.find?_cons_of_pos _ hx, List.filter_cons, if_pos hx]
      rfl
    · rw [List.find?_cons_of_neg _ hx, List.filter_cons, if_neg hx, ih]

theorem addToGroup_filter_key (acc : List (Ingredient × Nat))
    (r : IngredientAmountRow) (i : Ingredient) (a : Nat)
    (h : acc.filter (fun g => g.1 = i) = [(i, a)]) :
    (addToGroup acc r).filter (fun g => g.1 = i)
      = [(i, a + if r.ingredient = i then r.amount else 0)] := by
  unfold addToGroup
  split
  · rw [List.filter_map]
    have hcong : acc.filter ((fun g : Ingredient × Nat => decide (g.1 = i)) ∘
        (fun g : Ingredient × Nat =>
          if g.1 = r.ingredient then (g.1, g.2 + r.amount) else g))
        = acc.filter (fun g => g.1 = i) := by
      apply List.filter_congr
      intro g _
      by_cases hg : g.1 = r.ingredient <;> simp [hg]
    rw [hcong, h]
    by_cases hri : r.ingredient = i
    · simp [hri]
    · simp [hri, Ne.symm hri]
  · rename_i hany
    rw [List.filter_append, h]
    by_cases hri : r.ingredient = i
    · exfalso
      have hmem : (i, a) ∈ acc.filter (fun g : Ingredient × Nat => g.1 = i) := by
        rw [h]; exact List.mem_singleton_self _
      have hacc := (List.mem_filter.1 hmem).1
      exact hany (List.any_eq_true.2 ⟨(i, a), hacc, by simp [hri]⟩)
    · simp [hri, Ne.symm hri]

theorem addToGroup_filter_key_nil (acc : List (Ingredient × Nat))
    (r : IngredientAmountRow) (i : Ingredient)
    (h : acc.filter (fun g => g.1 = i) = []) (hri : r.ingredient ≠ i) :
    (addToGroup acc r).filter (fun g => g.1 = i) = [] := by
  unfold addToGroup
  split
  · rw [List.filter_map]
    have hcong : acc.filter ((fun g : Ingredient × Nat => decide (g.1 = i)) ∘
        (fun g : Ingredient × Nat =>
          if g.1 = r.ingredient then (g.1, g.2 + r.amount) else g))
        = acc.filter (fun g => g.1 = i) := by
      apply List.filter_congr
      intro g _
      by_cases hg : g.1 = r.ingredient <;> simp [hg]
    rw [hcong, h, List.map_nil]
  · rw [List.filter_append, h]
    simp [hri]

theorem foldl_addToGroup_filter (rows : List IngredientAmountRow)
    (acc : List (Ingredient × Nat)) (i : Ingredient) (a : Nat)
    (h : acc.filter (fun g => g.1 = i) = [(i, a)]) :
    (rows.foldl addToGroup acc).filter (fun g => g.1 = i)
      = [(i, a + sumFor i rows)] := by
  induction rows generalizing acc a with
  | nil => simpa [sumFor] using h
  | cons r rest ih =>
    rw [List.foldl_cons]
    have hstep := addToGroup_filter_key acc r i a h
    rw [ih (addToGroup acc r) _ hstep]
    by_cases hri : r.ingredient = i <;>
      simp [sumFor, List.filter_cons, hri, Nat.add_assoc]

theorem foldl_addToGroup_filter_nil (rows : List IngredientAmountRow)
    (acc : List (Ingredient × Nat)) (i : Ingredient)
    (h : acc.filter (fun g => g.1 = i) = []) :
    (rows.foldl addToGroup acc).filter (fun g => g.1 = i)
      = if rows.any (fun r => r.ingredient = i) then [(i, sumFor i rows)]
        else [] := by
  induction rows generalizing acc with
  | nil => simpa using h
  | cons r rest ih =>
    rw [List.foldl_cons]
    by_cases hri : r.ingredient = i
    · have hanyacc : acc.any (fun g => g.1 = r.ingredient) = false := by
        rw [List.any_eq_false]
        intro g hg
        have hne := List.filter_eq_nil_iff.1 h g hg
        simp only [decide_eq_true_eq] at hne ⊢
        rw [hri]; exact hne
      have hacc2 : (addToGroup acc r).filter (fun g => g.1 = i)
          = [(i, r.amount)] := by
        unfold addToGroup
        rw [if_neg (by simp [hanyacc]), List.filter_append, h]
        simp [hri]
      rw [foldl_addToGroup_filter rest _ i r.amount hacc2]
      simp [sumFor, List.filter_cons, hri]
    · have hstep := addToGroup_filter_key_nil acc r i h hri
      rw [ih (addToGroup acc r) hstep]
      simp [sumFor, List.filter_cons, hri]

theorem mem_foldl_addToGroup_keys (rows : List IngredientAmountRow)
    (acc : List (Ingredient × Nat)) (g : Ingredient × Nat)
    (hg : g ∈ rows.foldl addToGroup acc) :
    (∃ b ∈ acc, b.1 = g.1) ∨ ∃ r ∈ rows, r.ingredient = g.1 := by
  induction rows generalizing acc with
  | nil => exact Or.inl ⟨g, hg, rfl⟩
  | cons r rest ih =>
    rw [List.foldl_cons] at hg
    rcases ih (addToGroup acc r) hg with ⟨b, hb, hbe⟩ | ⟨r2, hr2, he⟩
    · unfold addToGroup at hb
      by_cases hany : acc.any (fun g => g.1 = r.ingredient) = true
      · rw [if_pos hany] at hb
        rcases List.mem_map.1 hb with ⟨c, hc, hce⟩
        refine Or.inl ⟨c, hc, ?_⟩
        have hkey : (if c.1 = r.ingredient then (c.1, c.2 + r.amount) else c).1
            = c.1 := by
          by_cases hcr : c.1 = r.ingredient <;> simp [hcr]
        rw [← hbe, ← hce, hkey]
      · rw [if_neg hany] at hb
        rcases List.mem_append.1 hb with hb1 | hb2
        · exact Or.inl ⟨b, hb1, hbe⟩
        · have : b = (r.ingredient, r.amount) := List.mem_singleton.1 hb2
          refine Or.inr ⟨r, List.mem_cons_self _ _, ?_⟩
          rw [← hbe, this]
    · exact Or.inr ⟨r2, List.mem_cons_of_mem _ hr2, he⟩

theorem addToBuying_filter_name (acc : List BuyEntry) (g : Ingredient × Nat)
    (n un : String) (a : Nat)
    (h : acc.filter (fun e => e.name = n) = [⟨n, un, a⟩]) :
    (addToBuying acc g).filter (fun e => e.name = n)
      = [⟨n, un, a + if g.1.name = n then g.2 else 0⟩] := by
  unfold addToBuying
  split
  · rw [List.filter_map]
    have hcong : acc.filter ((fun e : BuyEntry => decide (e.name = n)) ∘
        (fun e : BuyEntry =>
          if e.name = g.1.name then { e with amount := e.amount + g.2 } else e))
        = acc.filter (fun e => e.name = n) := by
      apply List.filter_congr
      intro e _
      by_cases he : e.name = g.1.name <;> simp [he]
    rw [hcong, h]
    by_cases hgn : g.1.name = n
    · simp [hgn]
    · simp [hgn, Ne.symm hgn]
  · rename_i hany
    rw [List.filter_append, h]
    by_cases hgn : g.1.name = n
    · exfalso
      have hmem : (⟨n, un, a⟩ : BuyEntry)
          ∈ acc.filter (fun e : BuyEntry => e.name = n) := by
        rw [h]; exact List.mem_singleton_self _
      have hacc := (List.mem_filter.1 hmem).1
      exact hany (List.any_eq_true.2 ⟨⟨n, un, a⟩, hacc, by simp [hgn]⟩)
    · simp [hgn]

theorem addToBuying_filter_name_nil (acc : List BuyEntry) (g : Ingredient × Nat)
    (n : String)
    (h : acc.filter (fun e => e.name = n) = []) (hgn : g.1.name ≠ n) :
    (addToBuying acc g).filter (fun e => e.name = n) = [] := by
  unfold addToBuying
  split
  · rw [List.filter_map]
    have hcong : acc.filter ((fun e : BuyEntry => decide (e.name = n)) ∘
        (fun e : BuyEntry =>
          if e.name = g.1.name then { e with amount := e.amount + g.2 } else e))
        = acc.filter (fun e => e.name = n) := by
      apply List.filter_congr
      intro e _
      by_cases he : e.name = g.1.name <;> simp [he]
    rw [hcong, h, List.map_nil]
  · rw [List.filter_append, h]
    simp [hgn]

theorem foldl_addToBuying_filter (gs : List (Ingredient × Nat))
    (acc : List BuyEntry) (n un : String) (a : Nat)
    (h : acc.filter (fun e => e.name = n) = [⟨n, un, a⟩]) :
    (gs.foldl addToBuying acc).filter (fun e => e.name = n)
      = [⟨n, un, a + groupSum n gs⟩] := by
  induction gs generalizing acc a with
  | nil => simpa [groupSum] using h
  | cons g rest ih =>
    rw [List.foldl_cons]
    have hstep := addToBuying_filter_name acc g n un a h
    rw [ih (addToBuying acc g) _ hstep]
    by_cases hgn : g.1.name = n <;>
      simp [groupSum, List.filter_cons, hgn, Nat.add_assoc]

theorem foldl_addToBuying_filter_nil (gs : List (Ingredient × Nat))
    (acc : List BuyEntry) (n : String)
    (h : acc.filter (fun e => e.name = n) = []) :
    (gs.foldl addToBuying acc).filter (fun e => e.name = n)
      = match gs.find? (fun g => g.1.name = n) with
        | none => []
        | some g0 => [⟨n, g0.1.measurement_unit, groupSum n gs⟩] := by
  induction gs generalizing acc with
  | nil => simpa using h
  | cons g rest ih =>
    rw [List.foldl_cons]
    by_cases hgn : g.1.name = n
    · rw [List.find?_cons_of_pos _ (by simp [hgn])]
      have hanyacc : acc.any (fun e => e.name = g.1.name) = false := by
        rw [List.any_eq_false]
        intro e he
        have hne := List.filter_eq_nil_iff.1 h e he
        simp only [decide_eq_true_eq] at hne ⊢
        rw [hgn]; exact hne
      have hacc2 : (addToBuying acc g).filter (fun e => e.name = n)
          = [⟨n, g.1.measurement_unit, g.2⟩] := by
        unfold addToBuying
        rw [if_neg (by simp [hanyacc]), List.filter_append, h]
        simp [hgn]
      rw [foldl_addToBuying_filter rest _ n g.1.measurement_unit g.2 hacc2]
      simp [groupSum, List.filter_cons, hgn]
    · rw [List.find?_cons_of_neg _ (by simp [hgn])]
      have hstep := addToBuying_filter_name_nil acc g n h hgn
      rw [ih (addToBuying acc g) hstep]
      have hgs : groupSum n (g :: rest) = groupSum n rest := by
        simp [groupSum, List.filter_cons, hgn]
      rw [hgs]

/-- C1: when the rows retrieved for user `u`'s shopping list that carry
ingredient `I`'s display name are exactly the two rows referencing the
same ingredient record `I` from recipes `r1` and `r2` (amounts `q1`,
`q2`), the report holds exactly one line for `I`, whose amount is the
exact sum `q1 + q2` (no rounding, no unit conversion: the unit is `I`'s
own). -/
theorem claim_C1 (db : DB) (u : Nat) (I : Ingredient) (r1 r2 q1 q2 : Nat)
    (hne : r1 ≠ r2)
    (hp1 : (u, r1) ∈ db.shoppingList) (hp2 : (u, r2) ∈ db.shoppingList)
    (hrows : (cartRows db u).filter (fun r => r.ingredient.name = I.name)
      = [⟨I, r1, q1⟩, ⟨I, r2, q2⟩]) :
    (buildBuyingList (cartRows db u)).filter (fun e => e.name = I.name)
      = [⟨I.name, I.measurement_unit, q1 + q2⟩] ∧
    ingredientLine ⟨I.name, I.measurement_unit, q1 + q2⟩
      ∈ wishlistLines db u := by
  have hIng : ∀ r ∈ cartRows db u, r.ingredient.name = I.name →
      r.ingredient = I := by
    intro r hr hn
    have hmem : r ∈ (cartRows db u).filter
        (fun r => r.ingredient.name = I.name) :=
      List.mem_filter.2 ⟨hr, by simp [hn]⟩
    rw [hrows] at hmem
    rcases List.mem_cons.1 hmem with h1 | h2
    · rw [h1]
    · rw [List.mem_singleton.1 h2]
  have hfI : (cartRows db u).filter (fun r => r.ingredient = I)
      = [⟨I, r1, q1⟩, ⟨I, r2, q2⟩] := by
    rw [← hrows]
    apply List.filter_congr
    intro r hr
    by_cases hri : r.ingredient = I
    · simp [hri]
    · have hnn : ¬r.ingredient.name = I.name := fun hn => hri (hIng r hr hn)
      simp [hri, hnn]
  have hany : (cartRows db u).any (fun r => r.ingredient = I) = true := by
    have hm1 : (⟨I, r1, q1⟩ : IngredientAmountRow)
        ∈ (cartRows db u).filter (fun r => r.ingredient = I) := by
      rw [hfI]; exact List.mem_cons_self _ _
    exact List.any_eq_true.2
      ⟨⟨I, r1, q1⟩, List.mem_of_mem_filter hm1, by simp⟩
  have hsum : sumFor I (cartRows db u) = q1 + q2 := by
    rw [sumFor, hfI]; simp
  have hGroups : (annotateSum (cartRows db u)).filter (fun g => g.1 = I)
      = [(I, q1 + q2)] := by
    have hn := foldl_addToGroup_filter_nil (cartRows db u) [] I (by simp)
    simp only [annotateSum]
    rw [hn]
    simp [hany, hsum]
  have hNames : (annotateSum (cartRows db u)).filter
      (fun g => g.1.name = I.name) = [(I, q1 + q2)] := by
    have hcong : (annotateSum (cartRows db u)).filter
        (fun g => g.1.name = I.name)
        = (annotateSum (cartRows db u)).filter (fun g => g.1 = I) := by
      apply List.filter_congr
      intro g hg
      by_cases hgI : g.1 = I
      · simp [hgI]
      · have hnn : ¬g.1.name = I.name := by
          intro hn
          rcases mem_foldl_addToGroup_keys (cartRows db u) [] g hg with
            ⟨b, hb, _⟩ | ⟨r, hr, he⟩
          · cases hb
          · exact hgI ((he ▸ rfl : r.ingredient = g.1) ▸
              hIng r hr (by rw [he]; exact hn))
        simp [hgI, hnn]
    rw [hcong, hGroups]
  have hfind : (annotateSum (cartRows db u)).find?
      (fun g => g.1.name = I.name) = some (I, q1 + q2) := by
    rw [find?_eq_filter_head, hNames]; rfl
  have hgsum : groupSum I.name (annotateSum (cartRows db u)) = q1 + q2 := by
    rw [groupSum, hNames]; simp
  have hfinal : (buildBuyingList (cartRows db u)).filter
      (fun e => e.name = I.name)
      = [⟨I.name, I.measurement_unit, q1 + q2⟩] := by
    rw [buildBuyingList,
      foldl_addToBuying_filter_nil (annotateSum (cartRows db u)) [] I.name
        (by simp),
      hfind, hgsum]
  refine ⟨hfinal, ?_⟩
  have hmem : (⟨I.name, I.measurement_unit, q1 + q2⟩ : BuyEntry)
      ∈ buildBuyingList (cartRows db u) := by
    have hmf : (⟨I.name, I.measurement_unit, q1 + q2⟩ : BuyEntry)
        ∈ (buildBuyingList (cartRows db u)).filter
          (fun e => e.name = I.name) := by
      rw [hfinal]; exact List.mem_singleton_self _
    exact List.mem_of_mem_filter hmf
  simp only [wishlistLines]
  exact List.mem_append_left _ (List.mem_map_of_mem _ hmem)

/-- C1 witness: in `dbC1` user 1 buys recipes 1 and 2, which share the
`sugar` record (amounts 3 and 4); the report has exactly one sugar line,
with amount 7. -/
theorem claim_C1_witness :
    (buildBuyingList (cartRows dbC1 1)).filter (fun e => e.name = "sugar")
      = [⟨"sugar", "g", 3 + 4⟩] ∧
    ingredientLine ⟨"sugar", "g", 3 + 4⟩ ∈ wishlistLines dbC1 1 :=
  claim_C1 dbC1 1 ⟨1, "sugar", "g"⟩ 1 2 3 4 (by decide) (by decide)
    (by decide) (by decide)

/-- C2: the code groups report lines by display name, not by ingredient
identity: in `dbC2` the two distinct ingredient records named `salt`
(ids 1 and 2, units `g` and `kg`) are merged into a single line whose
amount sums both and whose unit is the first-encountered one, where the
claim demands two separate lines. -/
theorem claim_C2 :
    (⟨1, "salt", "g"⟩ : Ingredient) ≠ ⟨2, "salt", "kg"⟩ ∧
    (⟨⟨1, "salt", "g"⟩, 1, 5⟩ : IngredientAmountRow) ∈ cartRows dbC2 1 ∧
    (⟨⟨2, "salt", "kg"⟩, 2, 7⟩ : IngredientAmountRow) ∈ cartRows dbC2 1 ∧
    buildBuyingList (cartRows dbC2 1) = [⟨"salt", "g", 12⟩] ∧
    wishlistLines dbC2 1 = ["salt - 12 g \n", "\n", footerLine] :=
  ⟨by decide, by decide, by decide, by decide, by decide⟩

/-- C3: a user with an empty shopping list gets a report that is exactly
the blank line followed by the attribution footer, with no ingredient
lines. -/
theorem claim_C3 (db : DB) (u : Nat) (h : purchasedRecipeIds db u = []) :
    wishlistLines db u = ["\n", footerLine] := by
  have hcart : cartRows db u = [] := by
    simp only [cartRows, h]
    exact List.filter_eq_nil_iff.2 (fun r _ => by simp)
  simp [wishlistLines, buildBuyingList, annotateSum, hcart]

/-- C3 witness: user 1 of `dbM` has no shopping-list rows. -/
theorem claim_C3_witness : wishlistLines dbM 1 = ["\n", footerLine] :=
  claim_C3 dbM 1 (by decide)

/-- C4 (amended): every ingredient line of the report is the claimed
`"<name> - <summed amount> <measurement unit>"` followed by a trailing
space and a newline. -/
theorem claim_C4 (db : DB) (u : Nat) (e : BuyEntry)
    (he : e ∈ buildBuyingList (cartRows db u)) :
    ingredientLine e ∈ wishlistLines db u ∧
    ingredientLine e
      = e.name ++ " - " ++ toString e.amount ++ " " ++ e.measurement_unit
        ++ " \n" ∧
    ingredientLine e = specIngredientLine e ++ " \n" := by
  refine ⟨?_, rfl, rfl⟩
  simp only [wishlistLines]
  exact List.mem_append_left _ (List.mem_map_of_mem _ he)

/-- C4 counterexample: in `dbC4` the salt line the report actually
contains is `"salt - 5 g \n"`, which is not the claimed exact format
`"salt - 5 g"`. -/
theorem claim_C4_counterexample :
    wishlistLines dbC4 1 = ["salt - 5 g \n", "\n", footerLine] ∧
    (⟨"salt", "g", 5⟩ : BuyEntry) ∈ buildBuyingList (cartRows dbC4 1) ∧
    ingredientLine ⟨"salt", "g", 5⟩ ≠ specIngredientLine ⟨"salt", "g", 5⟩ :=
  ⟨by decide, by decide, by decide⟩

/-- C4 witness: the amended format at the concrete salt entry of `dbC4`. -/
theorem claim_C4_witness :
    ingredientLine ⟨"salt", "g", 5⟩ ∈ wishlistLines dbC4 1 ∧
    ingredientLine ⟨"salt", "g", 5⟩
      = "salt" ++ " - " ++ toString 5 ++ " " ++ "g" ++ " \n" ∧
    ingredientLine ⟨"salt", "g", 5⟩
      = specIngredientLine ⟨"salt", "g", 5⟩ ++ " \n" :=
  claim_C4 dbC4 1 ⟨"salt", "g", 5⟩ (by decide)

/-- C8: the download response carries the claimed `Content-Disposition`
header, but its content type is the literal string
`'Content-Type: text/plain'` — the code passes that whole header line as
Django's `content_type` constructor argument — not `text/plain`. -/
theorem claim_C8 (db : DB) (u : Nat) :
    (DownloadShoppingCart_get db u).status = 200 ∧
    ("Content-Disposition", "attachment; filename=\"wishlist.txt\"")
      ∈ (DownloadShoppingCart_get db u).headers ∧
    (DownloadShoppingCart_get db u).contentType
      = "Content-Type: text/plain" ∧
    (DownloadShoppingCart_get db u).contentType ≠ "text/plain" :=
  ⟨rfl, by simp [DownloadShoppingCart_get], rfl, by
    intro h
    simp only [DownloadShoppingCart_get] at h
    exact absurd h (by decide)⟩

/-- C10: `get_delete` never answers the 400 "not added" response: after
`get_object_or_404` the membership object is a model instance, hence
truthy, so the `if not favorite_obj` branch is unreachable. -/
theorem claim_C10 (db : DB) (u rid : Nat) (m : ActedModel) :
    (get_delete db u rid m).fst.status ≠ 400 := by
  unfold get_delete
  split
  · simp [resp404]
  · split
    · simp [resp404]
    · rw [if_neg (by simp [instanceTruthy])]
      simp
    · simp [resp500]

/-! ### Lemmas for the membership operations -/

theorem actedTable_set (db : DB) (m : ActedModel) (tl : List (Nat × Nat)) :
    actedTable (setActedTable db m tl) m = tl := by
  cases m <;> rfl

theorem recipes_set (db : DB) (m : ActedModel) (tl : List (Nat × Nat)) :
    (setActedTable db m tl).recipes = db.recipes := by
  cases m <;> rfl

theorem filter_eq_singleton_of_countP (tbl : List (Nat × Nat)) (x : Nat × Nat)
    (hmem : x ∈ tbl) (hdup : tbl.countP (fun p => p = x) ≤ 1) :
    tbl.filter (fun p => p = x) = [x] := by
  have hx : x ∈ tbl.filter (fun p => p = x) :=
    List.mem_filter.2 ⟨hmem, by simp⟩
  rw [List.countP_eq_length_filter] at hdup
  cases hf : tbl.filter (fun p => p = x) with
  | nil => rw [hf] at hx; cases hx
  | cons y ys =>
    have hy : y = x := by
      have hyf : y ∈ tbl.filter (fun p => p = x) := by
        rw [hf]; exact List.mem_cons_self _ _
      simpa using (List.mem_filter.1 hyf).2
    rw [hf] at hdup
    cases ys with
    | nil => rw [hy]
    | cons z zs => simp [List.length_cons] at hdup

/-- C5: for every membership kind, adding a membership whose row already
exists answers 400 and changes nothing; adding a fresh one answers 201
with the serialized target and appends exactly one row, and a second
identical call then answers 400 leaving exactly one stored row. -/
theorem claim_C5 (k : Kind) (db : DB) (u t : Nat) (hT : targetOk db k t) :
    ((u, t) ∈ kindTable db k →
      addMembership k db u t = (⟨400, Body.msg (alreadyMsg k)⟩, db)) ∧
    ((u, t) ∉ kindTable db k →
      (addMembership k db u t).fst = ⟨201, kindRepr db k t⟩ ∧
      kindTable (addMembership k db u t).snd k = kindTable db k ++ [(u, t)] ∧
      addMembership k (addMembership k db u t).snd u t
        = (⟨400, Body.msg (alreadyMsg k)⟩, (addMembership k db u t).snd) ∧
      (kindTable (addMembership k db u t).snd k).countP
        (fun p => p = (u, t)) = 1) := by
  cases k with
  | favorite =>
    simp only [targetOk] at hT
    have hsome : (db.recipes.find? (fun r => r.id = t)).isSome :=
      List.find?_isSome.2 (by simpa using hT)
    obtain ⟨recipe, hfind⟩ := Option.isSome_iff_exists.1 hsome
    constructor
    · intro hmem
      simp only [kindTable] at hmem
      simp [addMembership, get_post, hfind, actedTable, hmem, alreadyMsg]
    · intro hmem
      simp only [kindTable] at hmem
      have h0 : db.favorites.countP (fun p => p = (u, t)) = 0 :=
        List.countP_eq_zero.2 (by
          intro a ha
          simp only [decide_eq_true_eq]
          exact fun heq => hmem (heq ▸ ha))
      refine ⟨?_, ?_, ?_, ?_⟩
      · simp [addMembership, get_post, hfind, actedTable, hmem, kindRepr]
      · simp [addMembership, get_post, hfind, actedTable, hmem,
          setActedTable, kindTable]
      · simp [addMembership, get_post, hfind, actedTable, hmem,
          setActedTable, alreadyMsg]
      · simp [addMembership, get_post, hfind, actedTable, hmem,
          setActedTable, kindTable, List.countP_append, h0]
  | shopping =>
    simp only [targetOk] at hT
    have hsome : (db.recipes.find? (fun r => r.id = t)).isSome :=
      List.find?_isSome.2 (by simpa using hT)
    obtain ⟨recipe, hfind⟩ := Option.isSome_iff_exists.1 hsome
    constructor
    · intro hmem
      simp only [kindTable] at hmem
      simp [addMembership, get_post, hfind, actedTable, hmem, alreadyMsg]
    · intro hmem
      simp only [kindTable] at hmem
      have h0 : db.shoppingList.countP (fun p => p = (u, t)) = 0 :=
        List.countP_eq_zero.2 (by
          intro a ha
          simp only [decide_eq_true_eq]
          exact fun heq => hmem (heq ▸ ha))
      refine ⟨?_, ?_, ?_, ?_⟩
      · simp [addMembership, get_post, hfind, actedTable, hmem, kindRepr]
      · simp [addMembership, get_post, hfind, actedTable, hmem,
          setActedTable, kindTable]
      · simp [addMembership, get_post, hfind, actedTable, hmem,
          setActedTable, alreadyMsg]
      · simp [addMembership, get_post, hfind, actedTable, hmem,
          setActedTable, kindTable, List.countP_append, h0]
  | follow =>
    simp only [targetOk] at hT
    constructor
    · intro hmem
      simp only [kindTable] at hmem
      simp [addMembership, FollowViewSet_post, hT, hmem, alreadyMsg]
    · intro hmem
      simp only [kindTable] at hmem
      have h0 : db.follows.countP (fun p => p = (u, t)) = 0 :=
        List.countP_eq_zero.2 (by
          intro a ha
          simp only [decide_eq_true_eq]
          exact fun heq => hmem (heq ▸ ha))
      refine ⟨?_, ?_, ?_, ?_⟩
      · simp [addMembership, FollowViewSet_post, hT, hmem, kindRepr]
      · simp [addMembership, FollowViewSet_post, hT, hmem, kindTable]
      · simp [addMembership, FollowViewSet_post, hT, hmem, alreadyMsg]
      · simp [addMembership, FollowViewSet_post, hT, hmem, kindTable,
          List.countP_append, h0]

/-- C5 witness: in `dbM`, favoriting recipe 1 as user 1 succeeds with
201, appends the single row, and a second identical call answers 400
leaving exactly one row stored. -/
theorem claim_C5_witness :
    (addMembership Kind.favorite dbM 1 1).fst
      = ⟨201, kindRepr dbM Kind.favorite 1⟩ ∧
    kindTable (addMembership Kind.favorite dbM 1 1).snd Kind.favorite
      = kindTable dbM Kind.favorite ++ [(1, 1)] ∧
    addMembership Kind.favorite (addMembership Kind.favorite dbM 1 1).snd 1 1
      = (⟨400, Body.msg (alreadyMsg Kind.favorite)⟩,
          (addMembership Kind.favorite dbM 1 1).snd) ∧
    (kindTable (addMembership Kind.favorite dbM 1 1).snd
        Kind.favorite).countP (fun p => p = (1, 1)) = 1 :=
  (claim_C5 Kind.favorite dbM 1 1 (by decide)).2 (by decide)

/-- C6: for every membership kind, removal answers 404 and leaves the
state unchanged when the target is missing or when the membership row is
missing; when the row exists it answers 204, deletes exactly that row
from its table, and leaves every other table and the rest of the state
unchanged. -/
theorem claim_C6 (k : Kind) (db : DB) (u t : Nat)
    (hdup : (kindTable db k).countP (fun p => p = (u, t)) ≤ 1) :
    (¬targetOk db k t → removeMembership k db u t = (resp404, db)) ∧
    (targetOk db k t → (u, t) ∉ kindTable db k →
      removeMembership k db u t = (resp404, db)) ∧
    (targetOk db k t → (u, t) ∈ kindTable db k →
      (removeMembership k db u t).fst = ⟨204, Body.msg "Удалено"⟩ ∧
      kindTable (removeMembership k db u t).snd k
        = (kindTable db k).filter (fun p => p ≠ (u, t)) ∧
      (∀ k2, k2 ≠ k →
        kindTable (removeMembership k db u t).snd k2 = kindTable db k2) ∧
      (removeMembership k db u t).snd.users = db.users ∧
      (removeMembership k db u t).snd.recipes = db.recipes ∧
      (removeMembership k db u t).snd.ingredientAmounts
        = db.ingredientAmounts) := by
  cases k with
  | favorite =>
    simp only [targetOk, kindTable] at hdup ⊢
    refine ⟨?_, ?_, ?_⟩
    · intro hT
      have hnone : db.recipes.find? (fun r => r.id = t) = none := by
        rw [← Option.not_isSome_iff_eq_none]
        intro hs
        exact hT (by simpa using List.find?_isSome.1 hs)
      simp [removeMembership, get_delete, hnone]
    · intro hT hmem
      have hsome : (db.recipes.find? (fun r => r.id = t)).isSome :=
        List.find?_isSome.2 (by simpa using hT)
      obtain ⟨recipe, hfind⟩ := Option.isSome_iff_exists.1 hsome
      have hnil : db.favorites.filter (fun p => p = (u, t)) = [] :=
        List.filter_eq_nil_iff.2 (by
          intro a ha
          simp only [decide_eq_true_eq]
          exact fun heq => hmem (heq ▸ ha))
      simp [removeMembership, get_delete, hfind, actedTable, hnil]
    · intro hT hmem
      have hsome : (db.recipes.find? (fun r => r.id = t)).isSome :=
        List.find?_isSome.2 (by simpa using hT)
      obtain ⟨recipe, hfind⟩ := Option.isSome_iff_exists.1 hsome
      have hone : db.favorites.filter (fun p => p = (u, t)) = [(u, t)] :=
        filter_eq_singleton_of_countP db.favorites (u, t) hmem hdup
      refine ⟨?_, ?_, ?_, ?_, ?_, ?_⟩ <;>
        simp [removeMembership, get_delete, hfind, actedTable, hone,
          instanceTruthy, setActedTable, kindTable]
      intro k2 hk2
      cases k2 <;> simp [kindTable] <;> exact absurd rfl hk2
  | shopping =>
    simp only [targetOk, kindTable] at hdup ⊢
    refine ⟨?_, ?_, ?_⟩
    · intro hT
      have hnone : db.recipes.find? (fun r => r.id = t) = none := by
        rw [← Option.not_isSome_iff_eq_none]
        intro hs
        exact hT (by simpa using List.find?_isSome.1 hs)
      simp [removeMembership, get_delete, hnone]
    · intro hT hmem
      have hsome : (db.recipes.find? (fun r => r.id = t)).isSome :=
        List.find?_isSome.2 (by simpa using hT)
      obtain ⟨recipe, hfind⟩ := Option.isSome_iff_exists.1 hsome
      have hnil : db.shoppingList.filter (fun p => p = (u, t)) = [] :=
        List.filter_eq_nil_iff.2 (by
          intro a ha
          simp only [decide_eq_true_eq]
          exact fun heq => hmem (heq ▸ ha))
      simp [removeMembership, get_delete, hfind, actedTable, hnil]
    · intro hT hmem
      have hsome : (db.recipes.find? (fun r => r.id = t)).isSome :=
        List.find?_isSome.2 (by simpa using hT)
      obtain ⟨recipe, hfind⟩ := Option.isSome_iff_exists.1 hsome
      have hone : db.shoppingList.filter (fun p => p = (u, t)) = [(u, t)] :=
        filter_eq_singleton_of_countP db.shoppingList (u, t) hmem hdup
      refine ⟨?_, ?_, ?_, ?_, ?_, ?_⟩ <;>
        simp [removeMembership, get_delete, hfind, actedTable, hone,
          instanceTruthy, setActedTable, kindTable]
      intro k2 hk2
      cases k2 <;> simp [kindTable] <;> exact absurd rfl hk2
  | follow =>
    simp only [targetOk, kindTable] at hdup ⊢
    refine ⟨?_, ?_, ?_⟩
    · intro hT
      simp [removeMembership, FollowViewSet_delete, hT]
    · intro hT hmem
      have hnil : db.follows.filter (fun p => p = (u, t)) = [] :=
        List.filter_eq_nil_iff.2 (by
          intro a ha
          simp only [decide_eq_true_eq]
          exact fun heq => hmem (heq ▸ ha))
      simp [removeMembership, FollowViewSet_delete, hT, hnil]
    · intro hT hmem
      have hone : db.follows.filter (fun p => p = (u, t)) = [(u, t)] :=
        filter_eq_singleton_of_countP db.follows (u, t) hmem hdup
      refine ⟨?_, ?_, ?_, ?_, ?_, ?_⟩ <;>
        simp [removeMembership, FollowViewSet_delete, hT, hone, kindTable]
      intro k2 hk2
      cases k2 <;> simp [kindTable] <;> exact absurd rfl hk2

/-- C6 witness: in `dbMfav` (favorite row (1,1) present), removal
answers 204 and deletes exactly that row; after it, in `dbM` the same
removal answers 404 unchanged, as does removal of a missing recipe. -/
theorem claim_C6_witness :
    (removeMembership Kind.favorite dbMfav 1 1).fst
      = ⟨204, Body.msg "Удалено"⟩ ∧
    kindTable (removeMembership Kind.favorite dbMfav 1 1).snd Kind.favorite
      = (kindTable dbMfav Kind.favorite).filter (fun p => p ≠ (1, 1)) ∧
    removeMembership Kind.favorite dbM 1 1 = (resp404, dbM) ∧
    removeMembership Kind.favorite dbM 1 7 = (resp404, dbM) :=
  ⟨((claim_C6 Kind.favorite dbMfav 1 1 (by decide)).2.2 (by decide)
      (by decide)).1,
   ((claim_C6 Kind.favorite dbMfav 1 1 (by decide)).2.2 (by decide)
      (by decide)).2.1,
   (claim_C6 Kind.favorite dbM 1 1 (by decide)).2.1 (by decide) (by decide),
   (claim_C6 Kind.favorite dbM 1 7 (by decide)).1 (by decide)⟩

/-- C7: from any state in which user `u` does not follow author `a` (and
`a` exists), following and then unfollowing restores the state exactly;
in particular the follow-relation set equals its pre-add value. -/
theorem claim_C7 (db : DB) (u a : Nat) (ha : a ∈ db.users)
    (hnf : (u, a) ∉ db.follows) :
    (FollowViewSet_delete (FollowViewSet_post db u a).snd u a).snd = db := by
  have hpost : (FollowViewSet_post db u a).snd
      = { db with follows := db.follows ++ [(u, a)] } := by
    simp [FollowViewSet_post, ha, hnf]
  rw [hpost]
  have hfil : (db.follows ++ [(u, a)]).filter (fun p => p = (u, a))
      = [(u, a)] := by
    rw [List.filter_append]
    have hnil : db.follows.filter (fun p => p = (u, a)) = [] :=
      List.filter_eq_nil_iff.2 (by
        intro p hp
        simp only [decide_eq_true_eq]
        exact fun heq => hnf (heq ▸ hp))
    rw [hnil]
    simp
  have hback : (db.follows ++ [(u, a)]).filter (fun p => p ≠ (u, a))
      = db.follows := by
    rw [List.filter_append]
    have hself : db.follows.filter (fun p => p ≠ (u, a)) = db.follows :=
      List.filter_eq_self.2 (by
        intro p hp
        simp only [decide_eq_true_eq]
        exact fun heq => hnf (heq ▸ hp))
    rw [hself]
    simp
  have hself2 : db.follows.filter (fun p => !decide (p = (u, a)))
      = db.follows :=
    List.filter_eq_self.2 (by
      intro p hp
      simp only [Bool.not_eq_true', decide_eq_false_iff_not]
      exact fun heq => hnf (heq ▸ hp))
  simp [FollowViewSet_delete, ha, hfil, hback, hself2]

/-- C7 witness: user 1 follows then unfollows author 2 starting from
`dbM`; the state returns to `dbM`. -/
theorem claim_C7_witness :
    (FollowViewSet_delete (FollowViewSet_post dbM 1 2).snd 1 2).snd = dbM :=
  claim_C7 dbM 1 2 (by decide) (by decide)

/-- C9: `cooking_time` validation accepts exactly the values ≥ 1, so a
recipe with `cooking_time = 0` is rejected at creation and every stored
recipe of a validated store keeps `cooking_time ≥ 1`. -/
theorem claim_C9 (db : DB) (rid t : Nat) :
    createRecipe db rid 0 = none ∧
    (cookingTimeOk t = true ↔ 1 ≤ t) ∧
    (∀ db2, createRecipe db rid t = some db2 →
      (∀ r ∈ db.recipes, 1 ≤ r.cooking_time) →
      ∀ r ∈ db2.recipes, 1 ≤ r.cooking_time) := by
  refine ⟨by simp [createRecipe, cookingTimeOk, MinValueValidator], ?_, ?_⟩
  · simp [cookingTimeOk, MinValueValidator]
  · intro db2 hcreate hinv r hr
    by_cases hok : cookingTimeOk t = true
    · rw [createRecipe, if_pos hok] at hcreate
      cases hcreate
      rcases List.mem_append.1 hr with h1 | h2
      · exact hinv r h1
      · have : r = ⟨rid, t⟩ := List.mem_singleton.1 h2
        rw [this]
        simpa [cookingTimeOk, MinValueValidator] using hok
    · rw [createRecipe, if_neg hok] at hcreate
      cases hcreate

/-- C9 witness: creation with `cooking_time = 0` is rejected on `dbM`;
with `cooking_time = 2` it succeeds and the stored row keeps its bound. -/
theorem claim_C9_witness :
    createRecipe dbM 9 0 = none ∧ (cookingTimeOk 2 = true ↔ 1 ≤ 2) ∧
    1 ≤ (⟨9, 2⟩ : RecipeRow).cooking_time :=
  ⟨(claim_C9 dbM 9 0).1, (claim_C9 dbM 9 2).2.1,
    (claim_C9 dbM 9 2).2.2 dbMplus (by decide) (by decide) ⟨9, 2⟩
      (by decide)⟩

end Foodgram
